import Mathlib

/-!
Lean model of the sliceutil Go library (github.com/devrob-go/sliceutil).

The repository contains two packages with overlapping APIs: the repository
root (compare.go, merge.go and a legacy utilities file) and pkg/sliceutil
(the reworked library).  Definitions below are grouped in namespaces `Root`
and `Pkg` accordingly and are direct translations of the Go sources.

Go runtime values handled by the comparison engine are embedded as the
inductive type `Value`; Go `interface` arguments that may be nil are
embedded as `Option Value`.  A Go panic is embedded as `none` in an
`Option` result.  The process-wide memoization cache `structCache` is an
explicit association list threaded through the root comparator.
-/

/-- Go runtime types as distinguished by `reflect.TypeOf`; only the shapes
the library manipulates are represented.  Slices of element kinds other
than int and string are represented by `tSliceBool`, standing for any
element kind outside the switch statements of the sources. -/
inductive GoType : Type where
  | tInt : GoType
  | tString : GoType
  | tBool : GoType
  | tSliceInt : GoType
  | tSliceString : GoType
  | tSliceBool : GoType
  | tPtr : GoType → GoType
  | tStruct : String → GoType
deriving DecidableEq

/-- Rendering of a Go type as `reflect.Type.String()` produces it, used by
both `generateCacheKey` functions.  Struct types are package qualified. -/
def typeStr : GoType → String
  | GoType.tInt => "int"
  | GoType.tString => "string"
  | GoType.tBool => "bool"
  | GoType.tSliceInt => "[]int"
  | GoType.tSliceString => "[]string"
  | GoType.tSliceBool => "[]bool"
  | GoType.tPtr t => "*" ++ typeStr t
  | GoType.tStruct n => "sliceutil." ++ n

mutual
/-- A non-nil Go runtime value of the shapes the comparators dispatch on:
primitives, slices of int, string or bool, pointers (nil or carrying an
address and a referent) and structs with named fields. -/
inductive Value : Type where
  | vInt : Int → Value
  | vString : String → Value
  | vBool : Bool → Value
  | vSliceInt : List Int → Value
  | vSliceString : List String → Value
  | vSliceBool : List Bool → Value
  | vPtrNil : GoType → Value
  | vPtr : GoType → Nat → Value → Value
  | vStruct : String → Fields → Value
/-- The field list of a struct value: each field has a name, an exported
flag (`CanInterface` in the sources) and a value. -/
inductive Fields : Type where
  | nil : Fields
  | cons : String → Bool → Value → Fields → Fields
end

/-- `reflect.TypeOf` on an embedded value.  A struct type is identified by
its (package qualified) name; a pointer type by its pointee type. -/
def typeOf : Value → GoType
  | Value.vInt _ => GoType.tInt
  | Value.vString _ => GoType.tString
  | Value.vBool _ => GoType.tBool
  | Value.vSliceInt _ => GoType.tSliceInt
  | Value.vSliceString _ => GoType.tSliceString
  | Value.vSliceBool _ => GoType.tSliceBool
  | Value.vPtrNil t => GoType.tPtr t
  | Value.vPtr t _ _ => GoType.tPtr t
  | Value.vStruct n _ => GoType.tStruct n

/-- True when the value is pointer shaped (`reflect.Value.Kind() == Ptr`). -/
def isPtrShaped : Value → Bool
  | Value.vPtrNil _ => true
  | Value.vPtr _ _ _ => true
  | _ => false

mutual
/-- Go interface equality (the `==` operator on `interface` values) on
embedded values: primitives by intrinsic equality, pointers by type and
address identity, structs fieldwise over all fields.  Comparing slices with
`==` panics in Go; the sources only reach this operation on non-slice
fields, so the slice rows here return false and are unreachable. -/
def goEq : Value → Value → Bool
  | Value.vInt n, Value.vInt m => n == m
  | Value.vString s, Value.vString t => s == t
  | Value.vBool b, Value.vBool c => b == c
  | Value.vPtrNil t, Value.vPtrNil u => t == u
  | Value.vPtr t a _, Value.vPtr u b _ => t == u && a == b
  | Value.vStruct n fs, Value.vStruct m gs => n == m && goEqFields fs gs
  | _, _ => false
/-- Fieldwise interface equality, all fields included. -/
def goEqFields : Fields → Fields → Bool
  | Fields.nil, Fields.nil => true
  | Fields.cons _ _ v fs, Fields.cons _ _ w gs => goEq v w && goEqFields fs gs
  | _, _ => false
end

mutual
/-- `reflect.DeepEqual` on embedded values: type equality first, then
primitives by intrinsic equality, slices by length and elementwise descent,
pointers equal when both nil, of identical address, or with deeply equal
referents, structs fieldwise over all fields (exported or not). -/
def deepEqual : Value → Value → Bool
  | Value.vInt n, Value.vInt m => n == m
  | Value.vString s, Value.vString t => s == t
  | Value.vBool b, Value.vBool c => b == c
  | Value.vSliceInt xs, Value.vSliceInt ys => xs == ys
  | Value.vSliceString xs, Value.vSliceString ys => xs == ys
  | Value.vSliceBool xs, Value.vSliceBool ys => xs == ys
  | Value.vPtrNil t, Value.vPtrNil u => t == u
  | Value.vPtr t a r, Value.vPtr u b s => t == u && (a == b || deepEqual r s)
  | Value.vStruct n fs, Value.vStruct m gs => n == m && deepEqualFields fs gs
  | _, _ => false
/-- Fieldwise deep equality, all fields included. -/
def deepEqualFields : Fields → Fields → Bool
  | Fields.nil, Fields.nil => true
  | Fields.cons _ _ v fs, Fields.cons _ _ w gs =>
      deepEqual v w && deepEqualFields fs gs
  | _, _ => false
end

/-- The memoization cache `structCache`: a mapping from string keys to
boolean results, embedded as an association list read through
`cacheLookup`. -/
abbrev Cache := List (String × Bool)

/-- Map lookup in the cache (`structCache.cache[cacheKey]`). -/
def cacheLookup (key : String) : Cache → Option Bool
  | [] => none
  | (k, v) :: rest => if k = key then some v else cacheLookup key rest

/-- `cacheComparisonResult`: store a result under a key, inserting or
overwriting (the new entry shadows any previous one under `cacheLookup`). -/
def cachePut (key : String) (result : Bool) (c : Cache) : Cache :=
  (key, result) :: c

/-- `ClearStructCache` from pkg/sliceutil: the cache becomes empty. -/
def clearStructCache : Cache := []

/-- Elementwise walk shared by both CompareSlices versions: the loop
`for i, v := range a` comparing `v` with `b[i]`, reached only after the
length guard, so the ragged rows are unreachable. -/
def elemsPairwiseEq {α : Type} [DecidableEq α] : List α → List α → Bool
  | [], [] => true
  | x :: xs, y :: ys => if x ≠ y then false else elemsPairwiseEq xs ys
  | _, _ => false

/-- Generic association list helpers embedding a Go map.  Lookup scans for
the first matching key; maps built only through `mapSet` and `mapDelete`
keep keys unique, so the first match is the only one. -/
def mapLookup {α β : Type} [DecidableEq α] (k : α) : List (α × β) → Option β
  | [] => none
  | (k2, v) :: rest => if k2 = k then some v else mapLookup k rest

/-- Go `m[k] = v`: overwrite in place when the key exists, append it
otherwise. -/
def mapSet {α β : Type} [DecidableEq α] (k : α) (v : β) :
    List (α × β) → List (α × β)
  | [] => [(k, v)]
  | (k2, w) :: rest =>
      if k2 = k then (k2, v) :: rest else (k2, w) :: mapSet k v rest

/-- Go `delete(m, k)`: drop the entry holding the key. -/
def mapDelete {α β : Type} [DecidableEq α] (k : α) :
    List (α × β) → List (α × β)
  | [] => []
  | (k2, w) :: rest => if k2 = k then rest else (k2, w) :: mapDelete k rest

namespace Root

/-- CompareSlices from the root package (unnamed/part_000 lines 9 to 25):
a length check, then elementwise equality in index order.  Nil slices are
not inspected, so a nil slice behaves as an empty one here. -/
def CompareSlices {α : Type} [DecidableEq α] (a b : List α) : Bool :=
  if a.length ≠ b.length then false else elemsPairwiseEq a b

/-- generateCacheKey from compare.go lines 99 to 101: the concatenation of
the two type identifier strings and nothing else. -/
def generateCacheKey (a b : Value) : String :=
  typeStr (typeOf a) ++ typeStr (typeOf b)

/-- `reflect.Value.Elem()` applied once when the value is pointer shaped:
a nil pointer dereferences to the invalid value, embedded as `none`. -/
def derefOnce : Value → Option Value
  | Value.vPtrNil _ => none
  | Value.vPtr _ _ r => some r
  | v => some v

mutual
/-- CompareStructs from compare.go lines 22 to 96, on non-nil operands
(the nil checks live in `Root.CompareStructs`):
type mismatch gives false; then the cache is consulted under the type-only
key; on a miss each operand is dereferenced once when pointer shaped and
struct fields are compared.  `reflect.Value.NumField` panics — embedded as
`none` — when the dereferenced operand is invalid (a nil pointer) or not a
struct; `Field(i)` equally panics on the second operand, which the zero
field struct never reaches. -/
def compareValues (a b : Value) (c : Cache) : Option (Bool × Cache) :=
  if typeOf a ≠ typeOf b then some (false, c) else compareSameType a b c
termination_by (sizeOf a, 3)
decreasing_by all_goals (apply Prod.Lex.right; simp_arith)
/-- The part of compare.go after the type check: the cache consultation and
the dereference. -/
def compareSameType (a b : Value) (c : Cache) : Option (Bool × Cache) :=
  match cacheLookup (generateCacheKey a b) c with
  | some r => some (r, c)
  | none =>
    match a with
    | Value.vStruct _ fsA =>
        compareAfterDeref fsA (derefOnce b) (generateCacheKey a b) c
    | Value.vPtr _ _ (Value.vStruct _ fsA) =>
        compareAfterDeref fsA (derefOnce b) (generateCacheKey a b) c
    | _ => none
termination_by (sizeOf a, 2)
decreasing_by all_goals (simp_wf; apply Prod.Lex.left; simp_arith)
/-- The stretch of compare.go between the dereference and the field loop:
a struct with no fields skips the loop entirely and caches true without
ever touching the second operand; otherwise the second operand must be a
dereferenced struct or `Field(0)` panics. -/
def compareAfterDeref (fsA : Fields) (ob : Option Value) (key : String)
    (c : Cache) : Option (Bool × Cache) :=
  match fsA with
  | Fields.nil => some (true, cachePut key true c)
  | Fields.cons nm ex v rest =>
      match ob with
      | some (Value.vStruct _ fsB) =>
          compareFields (Fields.cons nm ex v rest) fsB key c
      | _ => none
termination_by (sizeOf fsA, 1)
decreasing_by all_goals (simp_wf; apply Prod.Lex.right; simp_arith)
/-- The field loop of compare.go lines 48 to 91: unexported field pairs are
skipped; struct kinded fields recurse through the comparator (cache
included); slice kinded fields of int or string element type go through
CompareSlices, any other element kind caches false under the caller's key
and stops; remaining fields compare by interface equality.  A mismatch
caches false under the caller's key; finishing the loop caches true. -/
def compareFields (fa fb : Fields) (key : String) (c : Cache) :
    Option (Bool × Cache) :=
  match fa, fb with
  | Fields.nil, _ => some (true, cachePut key true c)
  | Fields.cons _ _ _ _, Fields.nil => none
  | Fields.cons _ ea va ra, Fields.cons _ eb vb rb =>
    if ea && eb then
      match va with
      | Value.vStruct sn sf =>
        match compareValues (Value.vStruct sn sf) vb c with
        | none => none
        | some (r, c1) =>
            if r then compareFields ra rb key c1
            else some (false, cachePut key false c1)
      | Value.vSliceInt xs =>
        match vb with
        | Value.vSliceInt ys =>
            if CompareSlices xs ys then compareFields ra rb key c
            else some (false, cachePut key false c)
        | _ => none
      | Value.vSliceString xs =>
        match vb with
        | Value.vSliceString ys =>
            if CompareSlices xs ys then compareFields ra rb key c
            else some (false, cachePut key false c)
        | _ => none
      | Value.vSliceBool _ => some (false, cachePut key false c)
      | _ =>
        if goEq va vb then compareFields ra rb key c
        else some (false, cachePut key false c)
    else compareFields ra rb key c
termination_by (sizeOf fa, 0)
decreasing_by all_goals (simp_wf; apply Prod.Lex.left; simp_arith)
end

/-- CompareStructs from compare.go lines 15 to 96: the early nil handling
(`a == nil or b == nil` returns `a == b`) around `Root.compareValues`. -/
def CompareStructs (a b : Option Value) (c : Cache) : Option (Bool × Cache) :=
  match a, b with
  | none, none => some (true, c)
  | none, some _ => some (false, c)
  | some _, none => some (false, c)
  | some x, some y => compareValues x y c

end Root

namespace Root

/-- FindDifferences from the root package (unnamed/part_000 lines 53 to
78): membership toggling over a boolean valued map — elements of `a` are
inserted, then each element of `b` deletes a present key or inserts a
missing one — and the surviving keys are collected. -/
def FindDifferences {α : Type} [DecidableEq α] (a b : List α) : List α :=
  let m := a.foldl (fun m v => mapSet v true m) ([] : List (α × Bool))
  let m2 := b.foldl (fun m v =>
      if (mapLookup v m).getD false then mapDelete v m else mapSet v true m) m
  m2.map Prod.fst

/-- MaxInt from the root package (unnamed/part_000 lines 82 to 99): panics
— embedded as `none` — on an empty (hence also on a nil) slice, otherwise
folds for the maximum starting from the head. -/
def MaxInt (a : List Int) : Option Int :=
  match a with
  | [] => none
  | x :: xs => some ((x :: xs).foldl (fun mx v => if v > mx then v else mx) x)

/-- MinInt from the root package (unnamed/part_000 lines 101 to 120),
the mirror image of `Root.MaxInt`. -/
def MinInt (a : List Int) : Option Int :=
  match a with
  | [] => none
  | x :: xs => some ((x :: xs).foldl (fun mn v => if v < mn then v else mn) x)

end Root

namespace Pkg

/-- The sentinel errors ErrEmptySlice, ErrNilSlice, ErrTypeMismatch and
ErrUnsupportedType of pkg/sliceutil, declared with errors.New in the
second embedded document of src/pkg/sliceutil/compare_test.go (lines 356
to 362): four distinct error values, one constructor each. -/
inductive Err : Type where
  | errEmptySlice : Err
  | errNilSlice : Err
  | errTypeMismatch : Err
  | errUnsupportedType : Err
deriving DecidableEq

/-- The message each sentinel error wraps. -/
def Err.message : Err → String
  | Err.errEmptySlice => "slice cannot be empty"
  | Err.errNilSlice => "slice cannot be nil"
  | Err.errTypeMismatch => "slice types do not match"
  | Err.errUnsupportedType => "unsupported slice type"

/-- OrderType of pkg/sliceutil, declared in the second embedded document
of src/pkg/sliceutil/compare_test.go (lines 365 to 372): a string type,
so any string converts to it and compares equal to the constants by its
characters alone. -/
abbrev OrderType : Type := String

/-- The OrderAsc constant, holding "ASC". -/
def OrderAsc : OrderType := "ASC"

/-- The OrderDesc constant, holding "DESC". -/
def OrderDesc : OrderType := "DESC"

/-- CompareSlices from pkg/sliceutil (unnamed/part_003 lines 24 to 45):
a nil slice is only equal to a nil slice; otherwise a length check then
elementwise equality in index order. -/
def CompareSlices {α : Type} [DecidableEq α] (a b : Option (List α)) : Bool :=
  match a, b with
  | none, none => true
  | none, some _ => false
  | some _, none => false
  | some xs, some ys =>
      if xs.length ≠ ys.length then false else elemsPairwiseEq xs ys

/-- True when the value is slice shaped (`reflect.Value.Kind() == Slice`). -/
def isSliceShaped : Value → Bool
  | Value.vSliceInt _ => true
  | Value.vSliceString _ => true
  | Value.vSliceBool _ => true
  | _ => false

/-- The elements of a slice shaped value boxed into interface values, as
`Value.Index(i).Interface()` produces them. -/
def sliceElems : Value → Option (List Value)
  | Value.vSliceInt xs => some (xs.map Value.vInt)
  | Value.vSliceString xs => some (xs.map Value.vString)
  | Value.vSliceBool xs => some (xs.map Value.vBool)
  | _ => none

/-- compareSlicesReflect from pkg/sliceutil (unnamed/part_003 lines 212 to
223): a length check then elementwise `reflect.DeepEqual`.  It is reached
only on slice shaped fields; the non-slice rows would panic in Go and are
unreachable. -/
def compareSlicesReflect (a b : Value) : Bool :=
  match sliceElems a, sliceElems b with
  | some ea, some eb =>
      ea.length == eb.length && (ea.zip eb).all (fun p => deepEqual p.1 p.2)
  | _, _ => false

mutual
/-- CompareStructs from pkg/sliceutil (unnamed/part_003 lines 148 to 208)
on non-nil operands (the nil checks live in `Pkg.CompareStructs`): type
mismatch gives false; a pointer pair with a nil side is equal only when
both sides are nil, otherwise both sides are dereferenced; a non-struct
pair falls back to `reflect.DeepEqual` on the original operands; struct
pairs descend fieldwise.  No cache is consulted or written. -/
def compareValues (a b : Value) : Bool :=
  if typeOf a ≠ typeOf b then false
  else
    match a, b with
    | Value.vPtrNil _, Value.vPtrNil _ => true
    | Value.vPtrNil _, _ => false
    | _, Value.vPtrNil _ => false
    | Value.vPtr _ _ (Value.vStruct _ fsa), Value.vPtr _ _ (Value.vStruct _ fsb) =>
        compareFields fsa fsb
    | Value.vStruct _ fsa, Value.vStruct _ fsb => compareFields fsa fsb
    | _, _ => deepEqual a b
termination_by (sizeOf a, 1)
decreasing_by all_goals (simp_wf; apply Prod.Lex.left; simp_arith)
/-- The field loop of pkg CompareStructs: unexported field pairs are
skipped; slice shaped fields go through `compareSlicesReflect`; every other
field recurses through the comparator.  The ragged row is unreachable for
operands of one type. -/
def compareFields : Fields → Fields → Bool
  | Fields.nil, _ => true
  | Fields.cons _ _ _ _, Fields.nil => true
  | Fields.cons _ ea va ra, Fields.cons _ eb vb rb =>
      if !(ea && eb) then compareFields ra rb
      else if isSliceShaped va then
        compareSlicesReflect va vb && compareFields ra rb
      else compareValues va vb && compareFields ra rb
termination_by fa _ => (sizeOf fa, 0)
decreasing_by all_goals (simp_wf; apply Prod.Lex.left; simp_arith)
end

/-- CompareStructs from pkg/sliceutil lines 148 to 208 with its nil
handling: nil equals nil only. -/
def CompareStructs (a b : Option Value) : Bool :=
  match a, b with
  | none, none => true
  | none, some _ => false
  | some _, none => false
  | some x, some y => compareValues x y

/-- One operand's key contribution in pkg generateCacheKey: the type
identifier, suffixed with the operand's address when it is pointer shaped
(the %p hex rendering of an address is abstracted to a decimal rendering;
a nil pointer prints address 0). -/
def keyPart (v : Value) : String :=
  typeStr (typeOf v) ++
    (match v with
     | Value.vPtr _ addr _ => ":" ++ toString addr
     | Value.vPtrNil _ => ":0"
     | _ => "")

/-- generateCacheKey from pkg/sliceutil (unnamed/part_003 lines 227 to
241): the two contributions joined with a colon in argument order. -/
def generateCacheKey (a b : Value) : String := keyPart a ++ ":" ++ keyPart b

/-- getCachedComparison from pkg/sliceutil lines 245 to 250: a read of the
cache, `none` standing for the not-found flag. -/
def getCachedComparison (key : String) (c : Cache) : Option Bool :=
  cacheLookup key c

/-- The cache size reported by GetStructCacheStats. -/
def structCacheSize (c : Cache) : Nat := c.length

/-- The pkg/sliceutil entry points that can observe or mutate the process
wide `structCache`, as an explicit operation alphabet. -/
inductive CacheOp : Type where
  | compareStructsCall : Option Value → Option Value → CacheOp
  | getCachedComparisonCall : String → CacheOp
  | cacheComparisonResultCall : String → Bool → CacheOp
  | clearStructCacheCall : CacheOp
  | getStructCacheStatsCall : CacheOp

/-- The state transition each pkg entry point performs on `structCache`
(unnamed/part_003 lines 148 to 279): CompareStructs contains no cache
access at all, getCachedComparison and GetStructCacheStats only read,
cacheComparisonResult inserts, ClearStructCache empties. -/
def cacheOpStep (c : Cache) : CacheOp → Cache
  | CacheOp.compareStructsCall _ _ => c
  | CacheOp.getCachedComparisonCall _ => c
  | CacheOp.cacheComparisonResultCall k r => cachePut k r c
  | CacheOp.clearStructCacheCall => clearStructCache
  | CacheOp.getStructCacheStatsCall => c

/-- The two operations that mutate the cache. -/
def CacheOp.isCacheWrite : CacheOp → Bool
  | CacheOp.cacheComparisonResultCall _ _ => true
  | CacheOp.clearStructCacheCall => true
  | _ => false

/-- The first phase of pkg FindDifferences: `m[v]++` over slice a. -/
def buildCounts {α : Type} [DecidableEq α] (a : List α) : List (α × Int) :=
  a.foldl (fun m v => mapSet v ((mapLookup v m).getD 0 + 1) m) []

/-- One step of the second phase of pkg FindDifferences over an element of
slice b: a key at count one is deleted, a present key is decremented, an
absent key is recorded as minus one. -/
def diffStep {α : Type} [DecidableEq α] (m : List (α × Int)) (v : α) :
    List (α × Int) :=
  match mapLookup v m with
  | some c => if c = 1 then mapDelete v m else mapSet v (c - 1) m
  | none => mapSet v (-1) m

/-- FindDifferences from pkg/sliceutil (unnamed/part_002 lines 360 to 405):
nil handling, then the two counting phases, then collection of the keys
holding a nonzero count. -/
def FindDifferences {α : Type} [DecidableEq α] (a b : Option (List α)) :
    List α :=
  match a, b with
  | none, none => []
  | none, some ys => ys
  | some xs, none => xs
  | some xs, some ys =>
      ((ys.foldl diffStep (buildCounts xs)).filter (fun p => p.2 != 0)).map
        Prod.fst

/-- MergeSlicesInt from pkg/sliceutil: merge then ascending sort, the
descending order taking the reversed result (Go sorts with a reversed
comparator; over a total order on integers the two agree elementwise).
The nil slice branches return the sorted copy of the other operand and
coincide with merging an empty slice. -/
def MergeSlicesInt (a b : List Int) (order : OrderType) : List Int :=
  let merged := a ++ b
  let sorted := merged.mergeSort (fun x y => decide (x ≤ y))
  if order = OrderAsc then sorted else sorted.reverse

/-- MergeSlicesString from pkg/sliceutil, as `Pkg.MergeSlicesInt` with the
lexicographic string order of sort.Strings. -/
def MergeSlicesString (a b : List String) (order : OrderType) : List String :=
  let merged := a ++ b
  let sorted := merged.mergeSort (fun x y => decide (x ≤ y))
  if order = OrderAsc then sorted else sorted.reverse

/-- A dynamically typed slice argument of pkg MergeSlices.  The bool row
stands for every element type outside the switch (the float64 row of the
source is not modelled — floating point). -/
inductive SliceArg : Type where
  | ints : List Int → SliceArg
  | strs : List String → SliceArg
  | bools : List Bool → SliceArg
deriving DecidableEq

/-- MergeSlices from pkg/sliceutil (unnamed/part_003 lines 303 to 332):
order validation returning ErrUnsupportedType, then a type switch — a
mismatched second operand returns ErrTypeMismatch, an element type outside
the switch returns ErrUnsupportedType. -/
def MergeSlices (a b : SliceArg) (order : OrderType) : Except Err SliceArg :=
  if order ≠ OrderAsc ∧ order ≠ OrderDesc then
    Except.error Err.errUnsupportedType
  else
    match a with
    | SliceArg.ints xs =>
        match b with
        | SliceArg.ints ys => Except.ok (SliceArg.ints (MergeSlicesInt xs ys order))
        | _ => Except.error Err.errTypeMismatch
    | SliceArg.strs xs =>
        match b with
        | SliceArg.strs ys => Except.ok (SliceArg.strs (MergeSlicesString xs ys order))
        | _ => Except.error Err.errTypeMismatch
    | SliceArg.bools _ => Except.error Err.errUnsupportedType

/-- MaxInt from pkg/sliceutil (unnamed/part_002 lines 467 to 486): nil and
empty inputs return their sentinel errors, otherwise a fold for the
maximum starting from the head. -/
def MaxInt (a : Option (List Int)) : Except Err Int :=
  match a with
  | none => Except.error Err.errNilSlice
  | some [] => Except.error Err.errEmptySlice
  | some (x :: xs) =>
      Except.ok ((x :: xs).foldl (fun mx v => if v > mx then v else mx) x)

/-- MinInt from pkg/sliceutil (unnamed/part_002 lines 498 to 517), the
mirror image of `Pkg.MaxInt`. -/
def MinInt (a : Option (List Int)) : Except Err Int :=
  match a with
  | none => Except.error Err.errNilSlice
  | some [] => Except.error Err.errEmptySlice
  | some (x :: xs) =>
      Except.ok ((x :: xs).foldl (fun mn v => if v < mn then v else mn) x)

/-- SumInt from pkg/sliceutil (unnamed/part_002 lines 559 to 569): only a
nil input is rejected; the empty slice sums to zero without error. -/
def SumInt (a : Option (List Int)) : Except Err Int :=
  match a with
  | none => Except.error Err.errNilSlice
  | some xs => Except.ok (xs.foldl (fun s v => s + v) 0)

/-- AverageInt from pkg/sliceutil (unnamed/part_002 lines 587 to 601): nil
and empty inputs return their sentinel errors, otherwise the sum divided
by the length (the float64 division is modelled as exact rational
division). -/
def AverageInt (a : Option (List Int)) : Except Err Rat :=
  match a with
  | none => Except.error Err.errNilSlice
  | some [] => Except.error Err.errEmptySlice
  | some (x :: xs) =>
      match SumInt (some (x :: xs)) with
      | Except.error e => Except.error e
      | Except.ok s => Except.ok ((s : Rat) / (((x :: xs).length : Int) : Rat))

end Pkg

/-- A one field struct S holding X = 1. -/
def sampleS1 : Value :=
  Value.vStruct "S" (Fields.cons "X" true (Value.vInt 1) Fields.nil)

/-- The same struct type S holding X = 2. -/
def sampleS2 : Value :=
  Value.vStruct "S" (Fields.cons "X" true (Value.vInt 2) Fields.nil)

/-- The type-only root cache key shared by every pair of S values. -/
def sampleKeySS : String := "sliceutil.Ssliceutil.S"

/-- A struct B whose only exported field is a slice of bools, an element
kind outside the root comparator's supported set. -/
def sampleBoolStruct : Value :=
  Value.vStruct "B" (Fields.cons "Bs" true (Value.vSliceBool [true]) Fields.nil)

/-- The type-only root cache key for two B values. -/
def sampleKeyBB : String := "sliceutil.Bsliceutil.B"

/-- A pointer to int at address 1. -/
def samplePtrA : Value := Value.vPtr GoType.tInt 1 (Value.vInt 5)

/-- A pointer to int at address 2. -/
def samplePtrB : Value := Value.vPtr GoType.tInt 2 (Value.vInt 7)

/-- A pointer to int at address 3. -/
def samplePtrC : Value := Value.vPtr GoType.tInt 3 (Value.vInt 9)

/-- A pointer type differs from its pointee type: Go type identity keeps
the indirection level. -/
theorem tPtr_ne (t : GoType) : GoType.tPtr t ≠ t := by
  induction t with
  | tPtr s ih => intro h; exact ih (by injection h)
  | _ => intro h; exact GoType.noConfusion h

mutual
/-- `reflect.DeepEqual` is reflexive on embedded values. -/
theorem deepEqual_refl (v : Value) : deepEqual v v = true := by
  cases v with
  | vInt n => simp [deepEqual]
  | vString s => simp [deepEqual]
  | vBool b => simp [deepEqual]
  | vSliceInt xs => simp [deepEqual]
  | vSliceString xs => simp [deepEqual]
  | vSliceBool xs => simp [deepEqual]
  | vPtrNil t => simp [deepEqual]
  | vPtr t a r => simp [deepEqual]
  | vStruct n fs => simp [deepEqual, deepEqualFields_refl fs]
/-- Fieldwise deep equality is reflexive. -/
theorem deepEqualFields_refl (fs : Fields) : deepEqualFields fs fs = true := by
  cases fs with
  | nil => simp [deepEqualFields]
  | cons n e v rest =>
      simp [deepEqualFields, deepEqual_refl v, deepEqualFields_refl rest]
end

/-- Zipping a list with itself pairs every element with itself, and deep
equality holds on each pair. -/
theorem zip_self_all_deepEqual (l : List Value) :
    (l.zip l).all (fun p => deepEqual p.1 p.2) = true := by
  induction l with
  | nil => rfl
  | cons x xs ih => simp_all [List.zip, deepEqual_refl]

/-- The reflective slice helper of pkg CompareStructs is reflexive on slice
shaped values. -/
theorem compareSlicesReflect_refl (v : Value) (h : Pkg.isSliceShaped v = true) :
    Pkg.compareSlicesReflect v v = true := by
  cases v <;> simp_all [Pkg.compareSlicesReflect, Pkg.sliceElems,
    Pkg.isSliceShaped, zip_self_all_deepEqual]

mutual
/-- The pkg comparator is reflexive on every non-nil value. -/
theorem pkg_compareValues_refl (v : Value) : Pkg.compareValues v v = true := by
  cases v with
  | vPtr t a r =>
      cases r with
      | vStruct n fs => simp [Pkg.compareValues, pkg_compareFields_refl fs]
      | _ => simp [Pkg.compareValues, deepEqual]
  | vStruct n fs => simp [Pkg.compareValues, pkg_compareFields_refl fs]
  | _ => simp [Pkg.compareValues, deepEqual_refl]
/-- The pkg field loop is reflexive on every field list. -/
theorem pkg_compareFields_refl (fs : Fields) : Pkg.compareFields fs fs = true := by
  cases fs with
  | nil => simp [Pkg.compareFields]
  | cons n e v rest =>
      cases e with
      | false => simp [Pkg.compareFields, pkg_compareFields_refl rest]
      | true =>
          cases hs : Pkg.isSliceShaped v with
          | true =>
              simp [Pkg.compareFields, hs, compareSlicesReflect_refl v hs,
                pkg_compareFields_refl rest]
          | false =>
              simp [Pkg.compareFields, hs, pkg_compareValues_refl v,
                pkg_compareFields_refl rest]
end

/-- A non pointer operand contributes its bare type identifier to the pkg
cache key. -/
theorem pkg_keyPart_of_not_ptr (v : Value) (h : isPtrShaped v = false) :
    Pkg.keyPart v = typeStr (typeOf v) := by
  cases v <;> simp_all [Pkg.keyPart, isPtrShaped]

/-- A non writing cache operation leaves the cache as found. -/
theorem cacheOpStep_of_not_write (c : Cache) (op : Pkg.CacheOp)
    (h : op.isCacheWrite = false) : Pkg.cacheOpStep c op = c := by
  cases op <;> simp_all [Pkg.cacheOpStep, Pkg.CacheOp.isCacheWrite]

/-- Under equal lengths, the elementwise walk decides list equality. -/
theorem elemsPairwiseEq_iff {α : Type} [DecidableEq α] :
    ∀ xs ys : List α, xs.length = ys.length →
      (elemsPairwiseEq xs ys = true ↔ xs = ys) := by
  intro xs
  induction xs with
  | nil =>
      intro ys h
      cases ys with
      | nil => simp [elemsPairwiseEq]
      | cons y ys => simp at h
  | cons x xs ih =>
      intro ys h
      cases ys with
      | nil => simp at h
      | cons y ys =>
          by_cases hxy : x = y
          · subst hxy
            simp [elemsPairwiseEq, ih ys (by simpa using h)]
          · simp [elemsPairwiseEq, hxy]

theorem mapLookup_set_self {α β : Type} [DecidableEq α] (k : α) (v : β) :
    ∀ m : List (α × β), mapLookup k (mapSet k v m) = some v := by
  intro m
  induction m with
  | nil => simp [mapSet, mapLookup]
  | cons p rest ih =>
      obtain ⟨k2, w⟩ := p
      by_cases h : k2 = k
      · subst h; simp [mapSet, mapLookup]
      · simp [mapSet, mapLookup, h, ih]

theorem mapLookup_set_ne {α β : Type} [DecidableEq α] (x k : α) (v : β)
    (hne : x ≠ k) : ∀ m, mapLookup x (mapSet k v m) = mapLookup x m := by
  have hne2 : ¬k = x := fun h => hne h.symm
  intro m
  induction m with
  | nil => simp [mapSet, mapLookup, hne2]
  | cons p rest ih =>
      obtain ⟨k2, w⟩ := p
      by_cases h : k2 = k
      · subst h
        simp [mapSet, mapLookup, hne2]
      · by_cases h2 : k2 = x
        · subst h2; simp [mapSet, mapLookup, h]
        · simp [mapSet, mapLookup, h, h2, ih]

theorem mapLookup_delete_ne {α β : Type} [DecidableEq α] (x k : α)
    (hne : x ≠ k) :
    ∀ m : List (α × β), mapLookup x (mapDelete k m) = mapLookup x m := by
  have hne2 : ¬k = x := fun h => hne h.symm
  intro m
  induction m with
  | nil => simp [mapDelete, mapLookup]
  | cons p rest ih =>
      obtain ⟨k2, w⟩ := p
      by_cases h : k2 = k
      · subst h
        simp [mapDelete, mapLookup, hne2]
      · by_cases h2 : k2 = x
        · subst h2; simp [mapDelete, mapLookup, h]
        · simp [mapDelete, mapLookup, h, h2, ih]

theorem mapLookup_of_not_mem_keys {α β : Type} [DecidableEq α] (x : α) :
    ∀ m : List (α × β), x ∉ m.map Prod.fst → mapLookup x m = none := by
  intro m
  induction m with
  | nil => intro _; rfl
  | cons p rest ih =>
      obtain ⟨k2, w⟩ := p
      intro hx
      simp only [List.map_cons, List.mem_cons] at hx
      push_neg at hx
      have hne2 : ¬k2 = x := fun h => hx.1 h.symm
      simp [mapLookup, hne2, ih hx.2]

theorem mapLookup_delete_self {α β : Type} [DecidableEq α] (k : α) :
    ∀ m : List (α × β), (m.map Prod.fst).Nodup →
      mapLookup k (mapDelete k m) = none := by
  intro m
  induction m with
  | nil => intro _; rfl
  | cons p rest ih =>
      obtain ⟨k2, w⟩ := p
      intro hn
      simp only [List.map_cons, List.nodup_cons] at hn
      by_cases h : k2 = k
      · subst h
        simp only [mapDelete, if_pos rfl]
        exact mapLookup_of_not_mem_keys k2 rest hn.1
      · simp [mapDelete, mapLookup, h, ih hn.2]

theorem mem_keys_mapSet {α β : Type} [DecidableEq α] (x k : α) (v : β) :
    ∀ m, x ∈ (mapSet k v m).map Prod.fst → x ∈ m.map Prod.fst ∨ x = k := by
  intro m
  induction m with
  | nil => intro h; simp [mapSet] at h; right; exact h
  | cons p rest ih =>
      obtain ⟨k2, w⟩ := p
      intro hx
      by_cases h : k2 = k
      · subst h; simp [mapSet] at hx; left; simpa using hx
      · simp only [mapSet, if_neg h, List.map_cons, List.mem_cons] at hx
        rcases hx with h1 | h1
        · left; simp [h1]
        · rcases ih h1 with h2 | h2
          · left; simp [h2]
          · right; exact h2

theorem nodup_keys_mapSet {α β : Type} [DecidableEq α] (k : α) (v : β) :
    ∀ m : List (α × β), (m.map Prod.fst).Nodup →
      ((mapSet k v m).map Prod.fst).Nodup := by
  intro m
  induction m with
  | nil => intro _; simp [mapSet]
  | cons p rest ih =>
      obtain ⟨k2, w⟩ := p
      intro hn
      simp only [List.map_cons, List.nodup_cons] at hn
      by_cases h : k2 = k
      · subst h
        simp only [mapSet, eq_self_iff_true, if_true, List.map_cons,
          List.nodup_cons]
        exact hn
      · simp only [mapSet, if_neg h, List.map_cons, List.nodup_cons]
        refine ⟨?_, ih hn.2⟩
        intro habs
        rcases mem_keys_mapSet k2 k v rest habs with h2 | h2
        · exact hn.1 h2
        · exact h h2

theorem mem_keys_mapDelete {α β : Type} [DecidableEq α] (x k : α) :
    ∀ m : List (α × β),
      x ∈ (mapDelete k m).map Prod.fst → x ∈ m.map Prod.fst := by
  intro m
  induction m with
  | nil => intro h; simp [mapDelete] at h
  | cons p rest ih =>
      obtain ⟨k2, w⟩ := p
      intro hx
      by_cases h : k2 = k
      · subst h
        simp only [mapDelete, eq_self_iff_true, if_true] at hx
        simp [List.mem_cons]
        right
        simpa using hx
      · simp only [mapDelete, if_neg h, List.map_cons, List.mem_cons] at hx
        rcases hx with h1 | h1
        · simp [h1]
        · simp [List.mem_cons]
          right
          simpa using ih h1

theorem nodup_keys_mapDelete {α β : Type} [DecidableEq α] (k : α) :
    ∀ m : List (α × β), (m.map Prod.fst).Nodup →
      ((mapDelete k m).map Prod.fst).Nodup := by
  intro m
  induction m with
  | nil => intro _; simp [mapDelete]
  | cons p rest ih =>
      obtain ⟨k2, w⟩ := p
      intro hn
      simp only [List.map_cons, List.nodup_cons] at hn
      by_cases h : k2 = k
      · subst h
        simp only [mapDelete, eq_self_iff_true, if_true]
        exact hn.2
      · simp only [mapDelete, if_neg h, List.map_cons, List.nodup_cons]
        exact ⟨fun habs => hn.1 (mem_keys_mapDelete k2 k rest habs), ih hn.2⟩

theorem mapLookup_eq_some_of_mem {α β : Type} [DecidableEq α]
    {x : α} {v : β} :
    ∀ m : List (α × β), (x, v) ∈ m → (m.map Prod.fst).Nodup →
      mapLookup x m = some v := by
  intro m
  induction m with
  | nil => intro h; simp at h
  | cons p rest ih =>
      obtain ⟨k2, w⟩ := p
      intro hmem hn
      simp only [List.map_cons, List.nodup_cons] at hn
      rcases List.mem_cons.mp hmem with h1 | h1
      · injection h1 with h1a h1b
        subst h1a; subst h1b
        simp [mapLookup]
      · have hne : ¬k2 = x := by
          intro heq
          subst heq
          exact hn.1 (List.mem_map.mpr ⟨(k2, v), h1, rfl⟩)
        simp [mapLookup, hne, ih h1 hn.2]

theorem mem_of_mapLookup_eq_some {α β : Type} [DecidableEq α]
    {x : α} {v : β} :
    ∀ m : List (α × β), mapLookup x m = some v → (x, v) ∈ m := by
  intro m
  induction m with
  | nil => intro h; simp [mapLookup] at h
  | cons p rest ih =>
      obtain ⟨k2, w⟩ := p
      intro h
      by_cases hk : k2 = x
      · subst hk
        simp [mapLookup] at h
        simp [h]
      · simp only [mapLookup, if_neg hk] at h
        simp [ih h]

theorem buildCounts_lookup_aux {α : Type} [DecidableEq α] :
    ∀ (a : List α) (m : List (α × Int)) (f : α → Nat),
      (∀ x, mapLookup x m = if f x = 0 then none else some ((f x : Int))) →
      ∀ x, mapLookup x
          (a.foldl (fun m v => mapSet v ((mapLookup v m).getD 0 + 1) m) m) =
        if f x + a.count x = 0 then none
        else some (((f x + a.count x : Nat) : Int)) := by
  intro a
  induction a with
  | nil =>
      intro m f h x
      simpa using h x
  | cons v rest ih =>
      intro m f h x
      simp only [List.foldl_cons]
      have hv : (mapLookup v m).getD 0 = (f v : Int) := by
        rw [h v]
        by_cases hf : f v = 0
        · simp [hf]
        · simp [hf]
      have hprem : ∀ y,
          mapLookup y (mapSet v ((mapLookup v m).getD 0 + 1) m) =
            if (if y = v then f v + 1 else f y) = 0 then none
            else some (((if y = v then f v + 1 else f y : Nat) : Int)) := by
        intro y
        by_cases hyv : y = v
        · subst hyv
          rw [mapLookup_set_self, hv]
          have hyy : (if y = y then f y + 1 else f y) = f y + 1 := if_pos rfl
          rw [hyy]
          have hnz : ¬(f y + 1 = 0) := by omega
          rw [if_neg hnz]
          push_cast
          ring_nf
        · rw [mapLookup_set_ne y v _ hyv, h y]
          simp [hyv]
      have hres := ih (mapSet v ((mapLookup v m).getD 0 + 1) m)
        (fun y => if y = v then f v + 1 else f y) hprem x
      have hfx : f x + (v :: rest).count x =
          (if x = v then f v + 1 else f x) + rest.count x := by
        by_cases hxv : x = v
        · subst hxv
          rw [List.count_cons_self, if_pos rfl]
          omega
        · have hvx : ¬v = x := fun h2 => hxv h2.symm
          have hcc : (v :: rest).count x = rest.count x := by
            simp [List.count_cons, hvx]
          rw [hcc, if_neg hxv]
      rw [hfx]
      exact hres

theorem buildCounts_lookup {α : Type} [DecidableEq α] (a : List α) (x : α) :
    mapLookup x (Pkg.buildCounts a) =
      if a.count x = 0 then none else some ((a.count x : Int)) := by
  have h := buildCounts_lookup_aux a [] (fun _ => 0) (fun y => rfl) x
  simpa [Pkg.buildCounts] using h

theorem nodup_keys_buildCounts_aux {α : Type} [DecidableEq α] :
    ∀ (a : List α) (m : List (α × Int)), (m.map Prod.fst).Nodup →
      ((a.foldl (fun m v => mapSet v ((mapLookup v m).getD 0 + 1) m) m).map
        Prod.fst).Nodup := by
  intro a
  induction a with
  | nil => intro m h; simpa using h
  | cons v rest ih =>
      intro m h
      simp only [List.foldl_cons]
      exact ih _ (nodup_keys_mapSet v _ m h)

theorem mapLookup_diffStep_ne {α : Type} [DecidableEq α] (x v : α)
    (hne : x ≠ v) (m : List (α × Int)) :
    mapLookup x (Pkg.diffStep m v) = mapLookup x m := by
  unfold Pkg.diffStep
  cases h : mapLookup v m with
  | none => simp [mapLookup_set_ne x v _ hne]
  | some c =>
      by_cases hc : c = 1
      · simp [hc, mapLookup_delete_ne x v hne]
      · simp [hc, mapLookup_set_ne x v _ hne]

theorem nodup_keys_diffStep {α : Type} [DecidableEq α] (v : α)
    (m : List (α × Int)) (h : (m.map Prod.fst).Nodup) :
    ((Pkg.diffStep m v).map Prod.fst).Nodup := by
  unfold Pkg.diffStep
  cases hl : mapLookup v m with
  | none => exact nodup_keys_mapSet v _ m h
  | some c =>
      dsimp only
      by_cases hc : c = 1
      · rw [if_pos hc]
        exact nodup_keys_mapDelete v m h
      · rw [if_neg hc]
        exact nodup_keys_mapSet v _ m h

theorem diffFold_lookup {α : Type} [DecidableEq α] :
    ∀ (b : List α) (m : List (α × Int)) (f : α → Int),
      (m.map Prod.fst).Nodup →
      (∀ x, mapLookup x m = if f x = 0 then none else some (f x)) →
      ∀ x, mapLookup x (b.foldl Pkg.diffStep m) =
        if f x - b.count x = 0 then none else some (f x - b.count x) := by
  intro b
  induction b with
  | nil =>
      intro m f hn h x
      simpa using h x
  | cons v rest ih =>
      intro m f hn h x
      simp only [List.foldl_cons]
      have hn1 : ((Pkg.diffStep m v).map Prod.fst).Nodup :=
        nodup_keys_diffStep v m hn
      have hprem : ∀ y, mapLookup y (Pkg.diffStep m v) =
          if (f y - if y = v then 1 else 0) = 0 then none
          else some (f y - if y = v then 1 else 0) := by
        intro y
        by_cases hyv : y = v
        · subst hyv
          have hyy : (if y = y then (1 : Int) else 0) = 1 := if_pos rfl
          rw [hyy]
          unfold Pkg.diffStep
          cases hl : mapLookup y m with
          | none =>
              have hf : f y = 0 := by
                by_cases hf0 : f y = 0
                · exact hf0
                · rw [h y] at hl; simp [hf0] at hl
              dsimp only
              rw [mapLookup_set_self]
              have hnz : ¬(f y - 1 = 0) := by omega
              rw [if_neg hnz, hf]
              norm_num
          | some c =>
              have hfc : f y ≠ 0 ∧ c = f y := by
                by_cases hf0 : f y = 0
                · rw [h y] at hl; simp [hf0] at hl
                · rw [h y] at hl
                  simp [hf0] at hl
                  exact ⟨hf0, hl.symm⟩
              dsimp only
              by_cases hc : c = 1
              · rw [if_pos hc, mapLookup_delete_self y m hn]
                have hz : f y - 1 = 0 := by omega
                rw [if_pos hz]
              · rw [if_neg hc, mapLookup_set_self]
                have hz : ¬(f y - 1 = 0) := by omega
                rw [if_neg hz, hfc.2]
        · rw [mapLookup_diffStep_ne y v hyv m, h y]
          simp [hyv]
      have hres := ih (Pkg.diffStep m v)
        (fun y => f y - if y = v then 1 else 0) hn1 hprem x
      have hfx : f x - ((v :: rest).count x : Int) =
          (f x - if x = v then (1 : Int) else 0) - (rest.count x : Int) := by
        by_cases hxv : x = v
        · subst hxv
          rw [List.count_cons_self, if_pos rfl]
          push_cast
          ring
        · have hvx : ¬v = x := fun h2 => hxv h2.symm
          have hcc : (v :: rest).count x = rest.count x := by
            simp [List.count_cons, hvx]
          rw [hcc, if_neg hxv]
          ring
      rw [hfx]
      exact hres

theorem nodup_keys_diffFold {α : Type} [DecidableEq α] :
    ∀ (b : List α) (m : List (α × Int)), (m.map Prod.fst).Nodup →
      ((b.foldl Pkg.diffStep m).map Prod.fst).Nodup := by
  intro b
  induction b with
  | nil => intro m h; simpa using h
  | cons v rest ih =>
      intro m h
      simp only [List.foldl_cons]
      exact ih _ (nodup_keys_diffStep v m h)

theorem foldl_min_mem : ∀ (xs : List Int) (x : Int),
    xs.foldl (fun mn v => if v < mn then v else mn) x ∈ x :: xs := by
  intro xs
  induction xs with
  | nil => intro x; simp
  | cons y ys ih =>
      intro x
      have h := ih (if y < x then y else x)
      simp only [List.foldl_cons]
      rcases List.mem_cons.mp h with h1 | h1
      · rw [h1]
        by_cases hy : y < x <;> simp [hy]
      · simp [List.mem_cons, h1]

theorem foldl_min_le : ∀ (xs : List Int) (x y : Int), y ∈ x :: xs →
    xs.foldl (fun mn v => if v < mn then v else mn) x ≤ y := by
  intro xs
  induction xs with
  | nil =>
      intro x y hy
      simp at hy
      subst hy
      simp
  | cons z zs ih =>
      intro x y hy
      simp only [List.foldl_cons]
      have step_le_x : (if z < x then z else x) ≤ x := by
        by_cases hz : z < x <;> simp [hz]; omega
      have step_le_z : (if z < x then z else x) ≤ z := by
        by_cases hz : z < x <;> simp [hz]; omega
      have res_le_step := ih (if z < x then z else x)
        (if z < x then z else x) (by simp)
      rcases List.mem_cons.mp hy with h1 | h1
      · subst h1; exact le_trans res_le_step step_le_x
      · rcases List.mem_cons.mp h1 with h2 | h2
        · subst h2; exact le_trans res_le_step step_le_z
        · exact ih (if z < x then z else x) y (by simp [h2])

theorem foldl_max_mem : ∀ (xs : List Int) (x : Int),
    xs.foldl (fun mx v => if v > mx then v else mx) x ∈ x :: xs := by
  intro xs
  induction xs with
  | nil => intro x; simp
  | cons y ys ih =>
      intro x
      have h := ih (if y > x then y else x)
      simp only [List.foldl_cons]
      rcases List.mem_cons.mp h with h1 | h1
      · rw [h1]
        by_cases hy : y > x <;> simp [hy]
      · simp [List.mem_cons, h1]

theorem foldl_max_ge : ∀ (xs : List Int) (x y : Int), y ∈ x :: xs →
    y ≤ xs.foldl (fun mx v => if v > mx then v else mx) x := by
  intro xs
  induction xs with
  | nil =>
      intro x y hy
      simp at hy
      subst hy
      simp
  | cons z zs ih =>
      intro x y hy
      simp only [List.foldl_cons]
      have x_le_step : x ≤ (if z > x then z else x) := by
        by_cases hz : z > x <;> simp [hz]; omega
      have z_le_step : z ≤ (if z > x then z else x) := by
        by_cases hz : z > x <;> simp [hz]; omega
      have step_le_res := ih (if z > x then z else x)
        (if z > x then z else x) (by simp)
      rcases List.mem_cons.mp hy with h1 | h1
      · subst h1; exact le_trans x_le_step step_le_res
      · rcases List.mem_cons.mp h1 with h2 | h2
        · subst h2; exact le_trans z_le_step step_le_res
        · exact ih (if z > x then z else x) y (by simp [h2])

/-- C1: the root CompareStructs result is not independent of the cache.
With an empty cache, S holding X 1 and S holding X 2 compare false; but
comparing S holding X 1 against itself first stores true under the shared
type-only key, after which the very same unequal pair answers true straight
from the cache.  The cache is therefore not transparent: clearing it
between identical call sequences changes returned booleans. -/
theorem c1_root_cache_poisoning :
    Root.CompareStructs (some sampleS1) (some sampleS2) [] =
      some (false, [(sampleKeySS, false)]) ∧
    Root.CompareStructs (some sampleS1) (some sampleS1) [] =
      some (true, [(sampleKeySS, true)]) ∧
    Root.CompareStructs (some sampleS1) (some sampleS2) [(sampleKeySS, true)] =
      some (true, [(sampleKeySS, true)]) := by
  refine ⟨?_, ?_, ?_⟩ <;>
    simp [Root.CompareStructs, Root.compareValues, Root.compareSameType,
      Root.compareAfterDeref, Root.compareFields, Root.generateCacheKey,
      sampleS1, sampleS2, sampleKeySS, typeOf, typeStr, cacheLookup,
      cachePut, goEq, Root.derefOnce]

/-- C2 counterexample: the root CompareStructs is not reflexive — a struct
whose only field is a slice of bools, an element kind outside the
comparator's supported set, compares false against itself on an empty
cache. -/
theorem c2_root_not_reflexive_on_bool_slice_field :
    Root.CompareStructs (some sampleBoolStruct) (some sampleBoolStruct) [] =
      some (false, [(sampleKeyBB, false)]) := by
  simp [Root.CompareStructs, Root.compareValues, Root.compareSameType,
    Root.compareAfterDeref, Root.compareFields, Root.generateCacheKey,
    sampleBoolStruct, sampleKeyBB, typeOf, typeStr, cacheLookup, cachePut,
    Root.derefOnce]

/-- C2 as amended: reflexivity holds for the pkg/sliceutil CompareStructs
on every value — structs with slice fields of any modelled element type,
pointers and nil included; the root variant fails it on unsupported slice
element kinds, per the counterexample. -/
theorem c2_pkg_compareStructs_reflexive (v : Option Value) :
    Pkg.CompareStructs v v = true := by
  cases v with
  | none => rfl
  | some x => simpa [Pkg.CompareStructs] using pkg_compareValues_refl x

/-- C3 counterexample: the root CompareStructs panics — embedded as `none`
— on a pair of nil pointers to a struct type, an input the claim requires
to yield a boolean. -/
theorem c3_root_panics_on_nil_pointer_pair :
    Root.CompareStructs (some (Value.vPtrNil (GoType.tStruct "S")))
      (some (Value.vPtrNil (GoType.tStruct "S"))) [] = none := by
  simp [Root.CompareStructs, Root.compareValues, Root.compareSameType,
    Root.generateCacheKey, typeOf, typeStr, cacheLookup]

/-- C3 as amended: the pkg/sliceutil CompareStructs is total — every pair
of operands, nils and mismatches included, yields a boolean, and type
mismatches answer false rather than an error — while the root
CompareStructs panics on nil pointer operands and on non-struct operands
reached on a cache miss (shown on the empty cache). -/
theorem c3_pkg_total_root_panics :
    (∀ a b : Option Value,
      Pkg.CompareStructs a b = true ∨ Pkg.CompareStructs a b = false) ∧
    (∀ x : Value, Pkg.CompareStructs (some x) none = false ∧
      Pkg.CompareStructs none (some x) = false) ∧
    (∀ x y : Value, typeOf x ≠ typeOf y → Pkg.compareValues x y = false) ∧
    (∀ t : GoType, Root.CompareStructs (some (Value.vPtrNil t))
      (some (Value.vPtrNil t)) [] = none) ∧
    (∀ n m : Int, Root.CompareStructs (some (Value.vInt n))
      (some (Value.vInt m)) [] = none) := by
  refine ⟨?_, ?_, ?_, ?_, ?_⟩
  · intro a b; cases h : Pkg.CompareStructs a b
    · right; rfl
    · left; rfl
  · intro x; exact ⟨rfl, rfl⟩
  · intro x y h; rw [Pkg.compareValues.eq_def]; simp [h]
  · intro t
    simp [Root.CompareStructs, Root.compareValues, Root.compareSameType,
      cacheLookup]
  · intro n m
    by_cases h : n = m <;>
      simp [Root.CompareStructs, Root.compareValues, Root.compareSameType,
        cacheLookup, typeOf, h]

/-- C4 counterexample: under the root derivation two pointer operands of
one type share one cache key whatever their addresses, while the pkg
derivation separates them — so the root key is not additionally derived
from pointer operands' memory identities as claimed. -/
theorem c4_root_key_ignores_addresses :
    Root.generateCacheKey samplePtrA samplePtrA =
      Root.generateCacheKey samplePtrB samplePtrC ∧
    Pkg.generateCacheKey samplePtrA samplePtrA ≠
      Pkg.generateCacheKey samplePtrB samplePtrC := by
  constructor
  · rfl
  · decide

/-- C4 as amended: the root key is the bare concatenation of the two type
identifiers and depends on nothing else — same-typed pairs always share a
key, pointer shaped or not — while the pkg key appends each pointer shaped
operand's address to its type identifier, joined colon separated in
argument order, and coincides exactly on same-typed non-pointer pairs. -/
theorem c4_cache_key_derivation :
    (∀ a b : Value,
      Root.generateCacheKey a b = typeStr (typeOf a) ++ typeStr (typeOf b)) ∧
    (∀ a b a2 b2 : Value, typeOf a = typeOf a2 → typeOf b = typeOf b2 →
      Root.generateCacheKey a b = Root.generateCacheKey a2 b2) ∧
    (∀ a b : Value, isPtrShaped a = false → isPtrShaped b = false →
      Pkg.generateCacheKey a b =
        typeStr (typeOf a) ++ ":" ++ typeStr (typeOf b)) ∧
    (∀ a b a2 b2 : Value, isPtrShaped a = false → isPtrShaped b = false →
      isPtrShaped a2 = false → isPtrShaped b2 = false →
      typeOf a = typeOf a2 → typeOf b = typeOf b2 →
      Pkg.generateCacheKey a b = Pkg.generateCacheKey a2 b2) ∧
    (∀ (t : GoType) (ad : Nat) (r b : Value),
      Pkg.generateCacheKey (Value.vPtr t ad r) b =
        typeStr (GoType.tPtr t) ++ ":" ++ toString ad ++ ":" ++
          Pkg.keyPart b) := by
  refine ⟨?_, ?_, ?_, ?_, ?_⟩
  · intro a b; rfl
  · intro a b a2 b2 h1 h2; simp [Root.generateCacheKey, h1, h2]
  · intro a b h1 h2
    simp [Pkg.generateCacheKey, pkg_keyPart_of_not_ptr a h1,
      pkg_keyPart_of_not_ptr b h2]
  · intro a b a2 b2 h1 h2 h3 h4 h5 h6
    simp [Pkg.generateCacheKey, pkg_keyPart_of_not_ptr a h1,
      pkg_keyPart_of_not_ptr b h2, pkg_keyPart_of_not_ptr a2 h3,
      pkg_keyPart_of_not_ptr b2 h4, h5, h6]
  · intro t ad r b
    simp [Pkg.generateCacheKey, Pkg.keyPart, typeOf, String.append_assoc]

/-- C5: the pkg/sliceutil CompareStructs performs no cache access, so every
sequence of non-writing entry points — CompareStructs calls, cache reads,
stats reads — leaves `structCache` exactly as found; in particular any
sequence of CompareStructs calls started on the empty cache ends on the
empty cache.  Only the cacheComparisonResult and ClearStructCache
transitions mutate it. -/
theorem c5_pkg_compareStructs_cache_frame :
    (∀ (ops : List Pkg.CacheOp) (c : Cache),
      (∀ op ∈ ops, op.isCacheWrite = false) →
      ops.foldl Pkg.cacheOpStep c = c) ∧
    (∀ pairs : List (Option Value × Option Value),
      ((pairs.map fun p => Pkg.CacheOp.compareStructsCall p.1 p.2).foldl
        Pkg.cacheOpStep ([] : Cache)) = ([] : Cache)) := by
  have frame : ∀ (ops : List Pkg.CacheOp) (c : Cache),
      (∀ op ∈ ops, op.isCacheWrite = false) →
      ops.foldl Pkg.cacheOpStep c = c := by
    intro ops
    induction ops with
    | nil => intro c _; rfl
    | cons op rest ih =>
        intro c h
        have h1 := h op (by simp)
        have h2 : ∀ o ∈ rest, o.isCacheWrite = false := by
          intro o ho; exact h o (by simp [ho])
        simp [List.foldl, cacheOpStep_of_not_write c op h1, ih c h2]
  refine ⟨frame, ?_⟩
  intro pairs
  apply frame
  intro op hop
  rcases List.mem_map.mp hop with ⟨p, _, rfl⟩
  rfl

/-- C6: both CompareStructs variants answer true on two nil operands,
false when exactly one operand is nil, and false on any runtime type
mismatch; a pointer to a type is never equal to a bare value of that type,
the false answer coming from the type check alone, before any dereference
— nil pointer operands included, with the root cache untouched. -/
theorem c6_nil_and_type_strictness :
    (∀ c : Cache, Root.CompareStructs none none c = some (true, c)) ∧
    (∀ (x : Value) (c : Cache),
      Root.CompareStructs (some x) none c = some (false, c) ∧
      Root.CompareStructs none (some x) c = some (false, c)) ∧
    (∀ (x y : Value) (c : Cache), typeOf x ≠ typeOf y →
      Root.CompareStructs (some x) (some y) c = some (false, c)) ∧
    (∀ (t : GoType) (ad : Nat) (r y : Value) (c : Cache), typeOf y = t →
      Root.CompareStructs (some (Value.vPtr t ad r)) (some y) c =
        some (false, c)) ∧
    (∀ (t : GoType) (y : Value) (c : Cache), typeOf y = t →
      Root.CompareStructs (some (Value.vPtrNil t)) (some y) c =
        some (false, c)) ∧
    (Pkg.CompareStructs none none = true) ∧
    (∀ x : Value, Pkg.CompareStructs (some x) none = false ∧
      Pkg.CompareStructs none (some x) = false) ∧
    (∀ x y : Value, typeOf x ≠ typeOf y →
      Pkg.CompareStructs (some x) (some y) = false) ∧
    (∀ (t : GoType) (ad : Nat) (r y : Value), typeOf y = t →
      Pkg.CompareStructs (some (Value.vPtr t ad r)) (some y) = false) ∧
    (∀ (t : GoType) (y : Value), typeOf y = t →
      Pkg.CompareStructs (some (Value.vPtrNil t)) (some y) = false) := by
  have rootMismatch : ∀ (x y : Value) (c : Cache), typeOf x ≠ typeOf y →
      Root.CompareStructs (some x) (some y) c = some (false, c) := by
    intro x y c h
    show Root.compareValues x y c = some (false, c)
    rw [Root.compareValues.eq_def]
    simp [h]
  have pkgMismatch : ∀ x y : Value, typeOf x ≠ typeOf y →
      Pkg.CompareStructs (some x) (some y) = false := by
    intro x y h
    show Pkg.compareValues x y = false
    rw [Pkg.compareValues.eq_def]
    simp [h]
  refine ⟨fun c => rfl, fun x c => ⟨rfl, rfl⟩, rootMismatch, ?_, ?_,
    rfl, fun x => ⟨rfl, rfl⟩, pkgMismatch, ?_, ?_⟩
  · intro t ad r y c h
    apply rootMismatch
    show GoType.tPtr t ≠ typeOf y
    rw [h]; exact tPtr_ne t
  · intro t y c h
    apply rootMismatch
    show GoType.tPtr t ≠ typeOf y
    rw [h]; exact tPtr_ne t
  · intro t ad r y h
    apply pkgMismatch
    show GoType.tPtr t ≠ typeOf y
    rw [h]; exact tPtr_ne t
  · intro t y h
    apply pkgMismatch
    show GoType.tPtr t ≠ typeOf y
    rw [h]; exact tPtr_ne t

/-- C7 counterexample: two length-zero slices do not always compare equal
in the pkg variant — a nil slice against an empty one answers false, while
the root variant, comparing by length and elements only, answers true. -/
theorem c7_pkg_nil_vs_empty_unequal :
    Pkg.CompareSlices (none : Option (List Int)) (some []) = false ∧
    Root.CompareSlices ([] : List Int) [] = true := by
  constructor
  · rfl
  · rfl

/-- C7 as amended: the pkg CompareSlices answers true exactly when both
slices are nil or both are non-nil with the same length and pairwise equal
elements in index order — nil against empty is unequal — while the root
CompareSlices answers true exactly on equal element sequences, so there
any two length-zero slices are equal. -/
theorem c7_compareSlices_characterization {α : Type} [DecidableEq α] :
    (∀ a b : Option (List α), Pkg.CompareSlices a b = true ↔
      (a = none ∧ b = none) ∨ (∃ xs, a = some xs ∧ b = some xs)) ∧
    (∀ xs ys : List α, Root.CompareSlices xs ys = true ↔ xs = ys) := by
  have root : ∀ xs ys : List α, Root.CompareSlices xs ys = true ↔ xs = ys := by
    intro xs ys
    by_cases h : xs.length = ys.length
    · simp [Root.CompareSlices, h, elemsPairwiseEq_iff xs ys h]
    · constructor
      · intro habs; simp [Root.CompareSlices, h] at habs
      · intro heq; subst heq; exact absurd rfl h
  refine ⟨?_, root⟩
  intro a b
  cases a with
  | none => cases b with
      | none => simp [Pkg.CompareSlices]
      | some ys => simp [Pkg.CompareSlices]
  | some xs =>
      cases b with
      | none => simp [Pkg.CompareSlices]
      | some ys =>
          have hsame : Pkg.CompareSlices (some xs) (some ys) =
              Root.CompareSlices xs ys := rfl
          rw [hsame, root xs ys]
          simp [eq_comm]

/-- C8 counterexample: a value occurring in both input slices is reported
by FindDifferences of both variants when its multiplicities differ — here
1 occurs once in the first slice and twice in the second, occurs in both,
and is still returned. -/
theorem c8_value_in_both_reported :
    Pkg.FindDifferences (some [(1 : Int)]) (some [1, 1]) = [1] ∧
    (1 : Int) ∈ [(1 : Int)] ∧ (1 : Int) ∈ [(1 : Int), 1] ∧
    Root.FindDifferences [(1 : Int)] [1, 1] = [1] := by
  refine ⟨?_, by decide, by decide, ?_⟩ <;> decide

/-- C8 as amended: the pkg FindDifferences on two non-nil slices returns
exactly the values whose occurrence count in the first slice differs from
their count in the second (order unspecified) — every value occurring in
exactly one slice is reported, and a value occurring in both is reported
precisely when its multiplicities differ. -/
theorem c8_findDifferences_membership {α : Type} [DecidableEq α]
    (a b : List α) (x : α) :
    x ∈ Pkg.FindDifferences (some a) (some b) ↔ a.count x ≠ b.count x := by
  have hnb : ((Pkg.buildCounts a).map Prod.fst).Nodup := by
    have := nodup_keys_buildCounts_aux a [] (by simp)
    simpa [Pkg.buildCounts] using this
  have hchar0 : ∀ y, mapLookup y (Pkg.buildCounts a) =
      if ((a.count y : Int)) = 0 then none else some ((a.count y : Int)) := by
    intro y
    rw [buildCounts_lookup a y]
    by_cases hc : a.count y = 0
    · simp [hc]
    · have : ¬((a.count y : Int)) = 0 := by exact_mod_cast hc
      simp [hc, this]
  have hchar := diffFold_lookup b (Pkg.buildCounts a)
    (fun y => (a.count y : Int)) hnb hchar0
  have hnM : (((b.foldl Pkg.diffStep (Pkg.buildCounts a)).map
      Prod.fst)).Nodup := nodup_keys_diffFold b (Pkg.buildCounts a) hnb
  show x ∈ ((b.foldl Pkg.diffStep (Pkg.buildCounts a)).filter
      (fun p => p.2 != 0)).map Prod.fst ↔ a.count x ≠ b.count x
  constructor
  · intro hmem
    rcases List.mem_map.mp hmem with ⟨p, hpf, hpx⟩
    rcases List.mem_filter.mp hpf with ⟨hpM, hpnz⟩
    have hpair : (x, p.2) ∈ b.foldl Pkg.diffStep (Pkg.buildCounts a) := by
      rw [← hpx]
      simpa using hpM
    have hlook := mapLookup_eq_some_of_mem _ hpair hnM
    rw [hchar x] at hlook
    intro heq
    have hz : ((a.count x : Int)) - ((b.count x : Int)) = 0 := by
      rw [heq]; ring
    rw [if_pos hz] at hlook
    exact Option.noConfusion hlook
  · intro hne
    have hz : ¬(((a.count x : Int)) - ((b.count x : Int)) = 0) := by
      intro h0
      apply hne
      omega
    have hlook : mapLookup x (b.foldl Pkg.diffStep (Pkg.buildCounts a)) =
        some (((a.count x : Int)) - ((b.count x : Int))) := by
      rw [hchar x, if_neg hz]
    have hpair := mem_of_mapLookup_eq_some _ hlook
    apply List.mem_map.mpr
    refine ⟨(x, ((a.count x : Int)) - ((b.count x : Int))),
      List.mem_filter.mpr ⟨hpair, ?_⟩, rfl⟩
    simpa using hz

/-- C9: the pkg MergeSlices on two int or two string slices returns a
sorted permutation of their concatenation — ascending under OrderAsc,
descending under OrderDesc — answers the type mismatch sentinel when the
operands' element types differ, and answers the unsupported type sentinel
(the taxonomy's only error for an unusable order) on every order string
other than "ASC" and "DESC". -/
theorem c9_mergeSlices_contract :
    (∀ a b : List Int, ∃ r : List Int,
      Pkg.MergeSlices (Pkg.SliceArg.ints a) (Pkg.SliceArg.ints b)
          Pkg.OrderAsc = Except.ok (Pkg.SliceArg.ints r) ∧
        r.Perm (a ++ b) ∧ r.Sorted (· ≤ ·)) ∧
    (∀ a b : List Int, ∃ r : List Int,
      Pkg.MergeSlices (Pkg.SliceArg.ints a) (Pkg.SliceArg.ints b)
          Pkg.OrderDesc = Except.ok (Pkg.SliceArg.ints r) ∧
        r.Perm (a ++ b) ∧ r.Sorted (· ≥ ·)) ∧
    (∀ a b : List String, ∃ r : List String,
      Pkg.MergeSlices (Pkg.SliceArg.strs a) (Pkg.SliceArg.strs b)
          Pkg.OrderAsc = Except.ok (Pkg.SliceArg.strs r) ∧
        r.Perm (a ++ b) ∧ r.Sorted (· ≤ ·)) ∧
    (∀ a b : List String, ∃ r : List String,
      Pkg.MergeSlices (Pkg.SliceArg.strs a) (Pkg.SliceArg.strs b)
          Pkg.OrderDesc = Except.ok (Pkg.SliceArg.strs r) ∧
        r.Perm (a ++ b) ∧ r.Sorted (· ≥ ·)) ∧
    (∀ (a : List Int) (b : List String),
      Pkg.MergeSlices (Pkg.SliceArg.ints a) (Pkg.SliceArg.strs b)
          Pkg.OrderAsc = Except.error Pkg.Err.errTypeMismatch ∧
      Pkg.MergeSlices (Pkg.SliceArg.ints a) (Pkg.SliceArg.strs b)
          Pkg.OrderDesc = Except.error Pkg.Err.errTypeMismatch ∧
      Pkg.MergeSlices (Pkg.SliceArg.strs b) (Pkg.SliceArg.ints a)
          Pkg.OrderAsc = Except.error Pkg.Err.errTypeMismatch ∧
      Pkg.MergeSlices (Pkg.SliceArg.strs b) (Pkg.SliceArg.ints a)
          Pkg.OrderDesc = Except.error Pkg.Err.errTypeMismatch) ∧
    (∀ (a b : Pkg.SliceArg) (s : Pkg.OrderType),
      s ≠ Pkg.OrderAsc → s ≠ Pkg.OrderDesc →
      Pkg.MergeSlices a b s = Except.error Pkg.Err.errUnsupportedType) := by
  have hdescAsc : Pkg.OrderDesc ≠ Pkg.OrderAsc := by decide
  have sortedRevInt : ∀ l : List Int,
      List.Sorted (· ≥ ·) (l.mergeSort (fun x y => decide (x ≤ y))).reverse := by
    intro l
    rw [List.Sorted, List.pairwise_reverse]
    exact List.sorted_mergeSort' l
  have sortedRevStr : ∀ l : List String,
      List.Sorted (· ≥ ·) (l.mergeSort (fun x y => decide (x ≤ y))).reverse := by
    intro l
    rw [List.Sorted, List.pairwise_reverse]
    exact List.sorted_mergeSort' l
  refine ⟨?_, ?_, ?_, ?_, ?_, ?_⟩
  · intro a b
    refine ⟨(a ++ b).mergeSort (fun x y => decide (x ≤ y)), ?_, ?_, ?_⟩
    · simp [Pkg.MergeSlices, Pkg.MergeSlicesInt]
    · exact List.mergeSort_perm (a ++ b) _
    · exact List.sorted_mergeSort' (a ++ b)
  · intro a b
    refine ⟨((a ++ b).mergeSort (fun x y => decide (x ≤ y))).reverse, ?_, ?_, ?_⟩
    · simp [Pkg.MergeSlices, Pkg.MergeSlicesInt, hdescAsc]
    · exact (List.reverse_perm _).trans (List.mergeSort_perm (a ++ b) _)
    · exact sortedRevInt (a ++ b)
  · intro a b
    refine ⟨(a ++ b).mergeSort (fun x y => decide (x ≤ y)), ?_, ?_, ?_⟩
    · simp [Pkg.MergeSlices, Pkg.MergeSlicesString]
    · exact List.mergeSort_perm (a ++ b) _
    · exact List.sorted_mergeSort' (a ++ b)
  · intro a b
    refine ⟨((a ++ b).mergeSort (fun x y => decide (x ≤ y))).reverse, ?_, ?_, ?_⟩
    · simp [Pkg.MergeSlices, Pkg.MergeSlicesString, hdescAsc]
    · exact (List.reverse_perm _).trans (List.mergeSort_perm (a ++ b) _)
    · exact sortedRevStr (a ++ b)
  · intro a b
    refine ⟨?_, ?_, ?_, ?_⟩ <;> simp [Pkg.MergeSlices]
  · intro a b s h1 h2
    simp [Pkg.MergeSlices, h1, h2]

/-- C10 counterexample: the pkg SumInt answers the sum 0 with no error on
the empty slice, where the claim requires an empty-input error. -/
theorem c10_sumInt_empty_ok :
    Pkg.SumInt (some ([] : List Int)) = Except.ok 0 := rfl

/-- C10 as amended: the pkg MinInt, MaxInt and AverageInt answer the
nil-slice sentinel on nil and the empty-slice sentinel on the empty slice,
and otherwise the minimum, maximum and average of the elements; SumInt
answers the nil-slice sentinel on nil but sums the empty slice to 0 with
no error.  All failures are returned values of the functions, never
panics. -/
theorem c10_stats_error_contract :
    (Pkg.MinInt none = Except.error Pkg.Err.errNilSlice) ∧
    (Pkg.MinInt (some []) = Except.error Pkg.Err.errEmptySlice) ∧
    (∀ (x : Int) (xs : List Int), ∃ m : Int,
      Pkg.MinInt (some (x :: xs)) = Except.ok m ∧ m ∈ x :: xs ∧
        ∀ y ∈ x :: xs, m ≤ y) ∧
    (Pkg.MaxInt none = Except.error Pkg.Err.errNilSlice) ∧
    (Pkg.MaxInt (some []) = Except.error Pkg.Err.errEmptySlice) ∧
    (∀ (x : Int) (xs : List Int), ∃ m : Int,
      Pkg.MaxInt (some (x :: xs)) = Except.ok m ∧ m ∈ x :: xs ∧
        ∀ y ∈ x :: xs, y ≤ m) ∧
    (Pkg.SumInt none = Except.error Pkg.Err.errNilSlice) ∧
    (∀ xs : List Int, Pkg.SumInt (some xs) = Except.ok xs.sum) ∧
    (Pkg.AverageInt none = Except.error Pkg.Err.errNilSlice) ∧
    (Pkg.AverageInt (some []) = Except.error Pkg.Err.errEmptySlice) ∧
    (∀ (x : Int) (xs : List Int),
      Pkg.AverageInt (some (x :: xs)) =
        Except.ok (((x :: xs).sum : Rat) / ((x :: xs).length : Rat))) := by
  refine ⟨rfl, rfl, ?_, rfl, rfl, ?_, rfl, ?_, rfl, rfl, ?_⟩
  · intro x xs
    refine ⟨xs.foldl (fun mn v => if v < mn then v else mn) x, ?_, ?_, ?_⟩
    · show Except.ok ((x :: xs).foldl (fun mn v => if v < mn then v else mn) x)
        = _
      simp [List.foldl_cons, ite_self]
    · exact foldl_min_mem xs x
    · exact foldl_min_le xs x
  · intro x xs
    refine ⟨xs.foldl (fun mx v => if v > mx then v else mx) x, ?_, ?_, ?_⟩
    · show Except.ok ((x :: xs).foldl (fun mx v => if v > mx then v else mx) x)
        = _
      simp [List.foldl_cons, ite_self]
    · exact foldl_max_mem xs x
    · exact foldl_max_ge xs x
  · intro xs
    show Except.ok (xs.foldl (fun s v => s + v) 0) = _
    simp [List.sum_eq_foldl]
  · intro x xs
    show (match Pkg.SumInt (some (x :: xs)) with
      | Except.error e => Except.error e
      | Except.ok s => Except.ok ((s : Rat) / (((x :: xs).length : Int) : Rat)))
        = _
    simp [Pkg.SumInt, List.sum_eq_foldl]
